import Mathlib

/-!
Verification of the MkDocs interactive-fence hook (`src/hooks/interactive.py`).

The development shallowly embeds the hook over `List Char`:

* `FENCE_TYPES`, `tryMatchAt`, `findFrom` embed the compiled regular
  expression `FENCE_RE` (source lines 21-26) together with Python's
  `re.sub` scanning discipline: `^` with `re.MULTILINE` matches at offset 0
  or right after a newline, `(`+"`"+`{3,})` is a greedy run of backticks
  (only the maximal run can be followed by a fence-type name, since no type
  name starts with a backtick), the alternation tries the tuple order of
  `FENCE_TYPES`, `\s*\n` commits to the last newline of the following
  whitespace run and backtracks towards earlier newlines, `(.*?)` (with
  `re.DOTALL`) grows the body lazily, `\1` is the backreference to the
  opening run, and `\s*$` greedily extends over trailing whitespace with
  `$` matching at end of input or before a newline.
* `fence_to_html` embeds `_fence_to_html` (lines 29-60); the YAML loader is
  a parameter of type `YamlLoad` because the `yaml` library is an external
  collaborator, and Python exceptions are embedded as `Except PyErr`:
  `yaml.YAMLError` is caught by the `try/except` of the source, while the
  `AttributeError` raised by `config.get` when `config` is not a dict is
  not caught anywhere and therefore surfaces as an `Except.error`.
* `on_page_markdown` embeds the entry point (lines 63-65).
* `jsonDumps` embeds `json.dumps(config, ensure_ascii=False)` on the
  JSON-serializable YAML values (`Yaml`); `escapeAttr` embeds the chained
  `str.replace` calls of line 49.
-/

namespace Hooks

/-- Whitespace class of Python's `\s` for `str` patterns (ASCII part plus
the Unicode whitespace code points Python's `re` recognizes). -/
def isWS (c : Char) : Bool :=
  c = ' ' || c = '\t' || c = '\n' || c = '\r' || c = '\x0b' || c = '\x0c' ||
  c = '\x1c' || c = '\x1d' || c = '\x1e' || c = '\x1f' || c = '\u0085' ||
  c = '\u00a0' || c = '\u1680' ||
  (0x2000 <= c.toNat && c.toNat <= 0x200a) ||
  c = '\u2028' || c = '\u2029' || c = '\u202f' || c = '\u205f' || c = '\u3000'

/-- JSON-serializable YAML values: the values `yaml.safe_load` can produce
that `json.dumps` serializes and that the hook's documents use (floats,
dates and non-string mapping keys are outside the value domain of the
claims and are not modelled). -/
inductive Yaml where
  | null : Yaml
  | bool : Bool → Yaml
  | int : Int → Yaml
  | str : List Char → Yaml
  | arr : List Yaml → Yaml
  | map : List (List Char × Yaml) → Yaml

/-- Error signalled by the YAML loader (`yaml.YAMLError`). -/
inductive YamlErr where
  | parseError : YamlErr
deriving DecidableEq

/-- Python exceptions that can escape `_fence_to_html`: the only one is the
`AttributeError` raised by `config.get(...)` when `config` is not a dict. -/
inductive PyErr where
  | attributeError : PyErr
deriving DecidableEq

/-- Type of the YAML loader collaborator (`yaml.safe_load`). -/
def YamlLoad : Type := List Char → Except YamlErr Yaml

/-- Fence-type names, in the order of the source tuple `FENCE_TYPES`
(line 17), which is also the order of the regex alternation. -/
def FENCE_TYPES : List (List Char) :=
  ["quiz".toList, "terminal".toList, "command-builder".toList,
   "exercise".toList, "code-walkthrough".toList]

/-- Length of the leading run of backticks. -/
def tickRun : List Char → Nat
  | [] => 0
  | c :: cs => if c = '`' then tickRun cs + 1 else 0

/-- Length of the leading run of `\s` whitespace. -/
def wsRun : List Char → Nat
  | [] => 0
  | c :: cs => if isWS c then wsRun cs + 1 else 0

/-- Offset `i` is a start-of-line position of `doc`: the `^` anchor under
`re.MULTILINE` (offset 0 or right after a newline). -/
def lineStartAt (doc : List Char) (i : Nat) : Bool :=
  i = 0 || doc.get? (i - 1) = some '\n'

/-- First fence-type name (in alternation order) that is a prefix of
`doc.drop j`; at most one can match since no name is a prefix of another. -/
def fenceTypeAt (doc : List Char) (j : Nat) : Option (List Char) :=
  FENCE_TYPES.find? (fun t => t.isPrefixOf (doc.drop j))

/-- A successful match of `FENCE_RE`, with the spans Python's match object
would report: `mstart`/`mend` delimit the whole match, `ticks` is the
length of group 1 (the opening backtick run), `ftype` is group 2,
`bodyStart` and `body` give group 3. -/
structure FenceMatch where
  mstart : Nat
  mend : Nat
  ticks : Nat
  ftype : List Char
  bodyStart : Nat
  body : List Char
deriving DecidableEq

/-- Attempt to match `FENCE_RE` at offset `i` of `doc`, with the exact
backtracking priority of the pattern: the `\s*` before the body newline is
greedy (tried from the longest whitespace run downwards), the lazy body
`(.*?)` grows from the empty body upwards, and the trailing `\s*` before
`$` is greedy again.  The opening run is forced to be the maximal backtick
run at `i` and the alternation can match at most one type name, so neither
needs backtracking. -/
def tryMatchAt (doc : List Char) (i : Nat) : Option FenceMatch :=
  if lineStartAt doc i then
    let L := tickRun (doc.drop i)
    if 3 ≤ L then
      match fenceTypeAt doc (i + L) with
      | none => none
      | some t =>
        let q := i + L + t.length
        let mws := wsRun (doc.drop q)
        ((List.range mws).reverse).findSome? fun a =>
          if doc.get? (q + a) = some '\n' then
            let bs := q + a + 1
            (List.range (doc.length + 1 - bs)).findSome? fun b =>
              if doc.get? (bs + b) = some '\n' ∧
                  (doc.drop (bs + b + 1)).take L = List.replicate L '`' then
                let at2 := bs + b + 1 + L
                let mws2 := wsRun (doc.drop at2)
                ((List.range (mws2 + 1)).reverse).findSome? fun c =>
                  if at2 + c = doc.length ∨ doc.get? (at2 + c) = some '\n' then
                    some ⟨i, at2 + c, L, t, bs, (doc.drop bs).take b⟩
                  else none
              else none
          else none
    else none
  else none

/-- Leftmost match of `FENCE_RE` starting at offset `pos` or later: the
scanning loop of `re.sub`. -/
def findFrom (doc : List Char) (pos : Nat) : Option FenceMatch :=
  (List.range doc.length).findSome? fun j =>
    if pos ≤ j then tryMatchAt doc j else none

/-- Hexadecimal digit character (lowercase), as Python's `%x` formatting
uses inside `\u00xx` escapes. -/
def hexDigit (n : Nat) : Char :=
  if n < 10 then Char.ofNat (48 + n) else Char.ofNat (87 + n)

/-- Escape of one character inside a JSON string literal, exactly as
`json.dumps(..., ensure_ascii=False)` produces it: only `"`, backslash and
control characters below `0x20` are escaped; everything else (including
all non-ASCII characters) is emitted literally. -/
def jsonEscapeChar (c : Char) : List Char :=
  if c = '"' then ['\\', '"']
  else if c = '\\' then ['\\', '\\']
  else if c = '\n' then ['\\', 'n']
  else if c = '\t' then ['\\', 't']
  else if c = '\r' then ['\\', 'r']
  else if c = '\x08' then ['\\', 'b']
  else if c = '\x0c' then ['\\', 'f']
  else if c.toNat < 32 then
    ['\\', 'u', '0', '0', hexDigit (c.toNat / 16), hexDigit (c.toNat % 16)]
  else [c]

/-- Escape of a whole JSON string body. -/
def jsonEscapeStr : List Char → List Char
  | [] => []
  | c :: cs => jsonEscapeChar c ++ jsonEscapeStr cs

/-- Fuel-driven digit emitter; any fuel above the digit count works. -/
def natDigitsAux : Nat → Nat → List Char
  | 0, _ => []
  | fuel + 1, n =>
    if n < 10 then [Char.ofNat (48 + n)]
    else natDigitsAux fuel (n / 10) ++ [Char.ofNat (48 + n % 10)]

/-- Decimal digits of a natural number, as Python's `str` renders it. -/
def natDigits (n : Nat) : List Char := natDigitsAux (n + 1) n

/-- Decimal rendering of an integer, as Python's `str`/`json.dumps`. -/
def intDigits : Int → List Char
  | Int.ofNat n => natDigits n
  | Int.negSucc m => '-' :: natDigits (m + 1)

mutual

/-- Embedding of `json.dumps(config, ensure_ascii=False)` (source line 47):
Python's default separators are `", "` between items and `": "` between a
key and its value. -/
def jsonDumps : Yaml → List Char
  | Yaml.null => "null".toList
  | Yaml.bool true => "true".toList
  | Yaml.bool false => "false".toList
  | Yaml.int n => intDigits n
  | Yaml.str s => '"' :: (jsonEscapeStr s ++ ['"'])
  | Yaml.arr xs => '[' :: (dumpsElems xs ++ [']'])
  | Yaml.map kvs => '{' :: (dumpsPairs kvs ++ ['}'])
termination_by structural v => v

/-- Comma-space separated JSON renderings of array elements. -/
def dumpsElems : List Yaml → List Char
  | [] => []
  | [v] => jsonDumps v
  | v :: w :: rest => jsonDumps v ++ ',' :: ' ' :: dumpsElems (w :: rest)
termination_by structural l => l

/-- Comma-space separated JSON renderings of object members. -/
def dumpsPairs : List (List Char × Yaml) → List Char
  | [] => []
  | [(k, v)] => '"' :: (jsonEscapeStr k ++ '"' :: ':' :: ' ' :: jsonDumps v)
  | (k, v) :: p :: rest =>
    '"' :: (jsonEscapeStr k ++ '"' :: ':' :: ' ' :: jsonDumps v) ++
      ',' :: ' ' :: dumpsPairs (p :: rest)
termination_by structural l => l

end

/-- Replacement of every occurrence of the single character `t` by `rep`:
Python's `str.replace` restricted to a one-character pattern, which is how
all three `.replace` calls of source line 49 and the `.replace("-", " ")`
of line 51 use it. -/
def replaceChar (t : Char) (rep : List Char) : List Char → List Char
  | [] => []
  | c :: cs => (if c = t then rep else [c]) ++ replaceChar t rep cs

/-- Embedding of source line 49: escape the JSON text for embedding in a
double-quoted HTML attribute, replacing in this order `&` by `&amp;`, then
the single quote by `&#39;`, then `"` by `&quot;`. -/
def escapeAttr (s : List Char) : List Char :=
  replaceChar '"' ("&quot;".toList)
    (replaceChar (Char.ofNat 39) ("&#39;".toList)
      (replaceChar '&' ("&amp;".toList) s))

/-- Lookup in the configuration mapping: Python's `dict.get(key, default)`
(dictionaries produced by `yaml.safe_load` have unique keys, so the first
matching entry is the entry). -/
def dictGet (kvs : List (List Char × Yaml)) (k : List Char) (d : Yaml) : Yaml :=
  match kvs.find? (fun kv => kv.1 == k) with
  | some kv => kv.2
  | none => d

/-- Python's `str.title()` on the fence-type names: a cased letter is
uppercased when the preceding character is not a letter and lowercased
otherwise (ASCII inputs only, which is all the fixed fence types need). -/
def pyTitle (s : List Char) : List Char :=
  go false s
where
  /-- Recursion with the previous-character-is-a-letter flag. -/
  go : Bool → List Char → List Char
  | _, [] => []
  | prevAlpha, c :: cs =>
    (if c.isAlpha then (if prevAlpha then c.toLower else c.toUpper) else c) :: go c.isAlpha cs

mutual

/-- Python's `repr` on the modelled YAML values, used by `str` on lists and
dicts (single-quoted strings; the adaptive quote choice and escaping of
exotic characters inside `repr` of a string is not exercised by any
document of this development, only the backslash and quote escapes are
modelled). -/
def pyRepr : Yaml → List Char
  | Yaml.null => "None".toList
  | Yaml.bool true => "True".toList
  | Yaml.bool false => "False".toList
  | Yaml.int n => intDigits n
  | Yaml.str s => Char.ofNat 39 :: (pyReprEsc s ++ [Char.ofNat 39])
  | Yaml.arr xs => '[' :: (pyReprElems xs ++ [']'])
  | Yaml.map kvs => '{' :: (pyReprPairs kvs ++ ['}'])
termination_by structural v => v

/-- Escapes inside a `repr`-rendered string. -/
def pyReprEsc : List Char → List Char
  | [] => []
  | c :: cs =>
    (if c = '\\' then ['\\', '\\']
     else if c = Char.ofNat 39 then ['\\', Char.ofNat 39]
     else [c]) ++ pyReprEsc cs

/-- Comma-space separated `repr`s of list elements. -/
def pyReprElems : List Yaml → List Char
  | [] => []
  | [v] => pyRepr v
  | v :: w :: rest => pyRepr v ++ ',' :: ' ' :: pyReprElems (w :: rest)
termination_by structural l => l

/-- Comma-space separated `repr`s of dict members. -/
def pyReprPairs : List (List Char × Yaml) → List Char
  | [] => []
  | [(k, v)] =>
    Char.ofNat 39 :: (pyReprEsc k ++ [Char.ofNat 39]) ++ ':' :: ' ' :: pyRepr v
  | (k, v) :: p :: rest =>
    Char.ofNat 39 :: (pyReprEsc k ++ [Char.ofNat 39]) ++ ':' :: ' ' :: pyRepr v ++
      ',' :: ' ' :: pyReprPairs (p :: rest)
termination_by structural l => l

end

/-- Python's `str()` of a value, as an f-string interpolates it: a string
interpolates as itself, anything else as its `repr`-style rendering. -/
def pyStr : Yaml → List Char
  | Yaml.str s => s
  | v => pyRepr v

/-- Display title of source line 51:
`config.get("title", config.get("question", fence_type.replace("-", " ").title()))`,
rendered by the f-string of line 54. -/
def displayTitle (kvs : List (List Char × Yaml)) (t : List Char) : List Char :=
  pyStr (dictGet kvs ("title".toList)
    (dictGet kvs ("question".toList)
      (Yaml.str (pyTitle (replaceChar '-' [' '] t)))))

/-- Warning fragment of the YAML-error path (source lines 38-42). -/
def warnFragment (t : List Char) : List Char :=
  "<div class=\"admonition warning\"><p>Invalid interactive component configuration (".toList
    ++ t ++ ")</p></div>".toList

/-- Noscript fallback of source line 54. -/
def noscriptOf (title : List Char) : List Char :=
  "<noscript><p><strong>".toList ++ title ++
    "</strong> (requires JavaScript)</p></noscript>".toList

/-- Normal-path fragment of source lines 56-60. -/
def okFragment (t : List Char) (kvs : List (List Char × Yaml)) : List Char :=
  "<div class=\"interactive-".toList ++ t ++ "\" data-config=\"".toList ++
    escapeAttr (jsonDumps (Yaml.map kvs)) ++ "\">".toList ++
    noscriptOf (displayTitle kvs t) ++ "</div>".toList

/-- Embedding of `_fence_to_html` (source lines 29-60).  The `try/except`
catches exactly `yaml.YAMLError` and renders the warning fragment; a `None`
configuration is normalized to the empty dict; `config.get` on a non-dict
configuration raises an uncaught `AttributeError`, embedded as
`Except.error` (the `json.dumps` call on line 47 succeeds on any modelled
value, so the attribute error of line 51 is the first uncaught failure). -/
def fence_to_html (p : YamlLoad) (t body : List Char) : Except PyErr (List Char) :=
  match p body with
  | Except.error _ => Except.ok (warnFragment t)
  | Except.ok v =>
    let config := match v with
      | Yaml.null => Yaml.map []
      | _ => v
    match config with
    | Yaml.map kvs => Except.ok (okFragment t kvs)
    | _ => Except.error PyErr.attributeError

/-- Substitution loop of `FENCE_RE.sub(_fence_to_html, markdown)`: emit the
gap before the leftmost match at or after `pos`, then the replacement, then
continue scanning at the match end.  An exception raised by the per-match
conversion aborts the whole substitution, as in Python.  The fuel is
structural only; every match is nonempty, so `doc.length + 1` steps always
suffice. -/
def subLoop (p : YamlLoad) (doc : List Char) : Nat → Nat → Except PyErr (List Char)
  | 0, pos => Except.ok (doc.drop pos)
  | fuel + 1, pos =>
    match findFrom doc pos with
    | none => Except.ok (doc.drop pos)
    | some m => do
      let repl ← fence_to_html p m.ftype m.body
      let rest ← subLoop p doc fuel m.mend
      Except.ok ((doc.drop pos).take (m.mstart - pos) ++ repl ++ rest)

/-- Embedding of the MkDocs hook entry point `on_page_markdown` (source
lines 63-65); the keyword arguments of the Python signature are ignored by
the source and omitted here. -/
def on_page_markdown (p : YamlLoad) (doc : List Char) : Except PyErr (List Char) :=
  subLoop p doc (doc.length + 1) 0

/-- Modelled from the spec: the `yaml.safe_load` collaborator is not part
of `src/`, so its results on the concrete fence bodies appearing in this
development are modelled from the spec's YAML-equivalent semantics
(section 4.2): a block sequence yields a list, `key: value` pairs yield a
mapping with scalar values, the empty body yields the null value, a plain
scalar yields a string, and the unterminated flow sequence
`key: [unclosed` is a syntax error. -/
def yamlModel : YamlLoad := fun b =>
  if b = "- a".toList then Except.ok (Yaml.arr [Yaml.str ['a']])
  else if b = "hello".toList then Except.ok (Yaml.str "hello".toList)
  else if b = "a: 1".toList then
    Except.ok (Yaml.map [("a".toList, Yaml.int 1)])
  else if b = "title: T".toList then
    Except.ok (Yaml.map [("title".toList, Yaml.str ['T'])])
  else if b = "question: Q".toList then
    Except.ok (Yaml.map [("question".toList, Yaml.str ['Q'])])
  else if b = "title: a<b&c".toList then
    Except.ok (Yaml.map [("title".toList, Yaml.str "a<b&c".toList)])
  else if b = [] then Except.ok Yaml.null
  else Except.error YamlErr.parseError

/-- Replacement of every non-overlapping occurrence of the pattern `pat`
(scanned left to right) by `rep`: Python's `str.replace` for a multi
character pattern. -/
def replaceStr (pat rep : List Char) (s : List Char) : List Char :=
  match s with
  | [] => []
  | c :: cs =>
    if pat.isPrefixOf (c :: cs) ∧ pat ≠ [] then
      rep ++ replaceStr pat rep ((c :: cs).drop pat.length)
    else
      c :: replaceStr pat rep cs
termination_by s.length
decreasing_by
  · simp only [List.length_drop, List.length_cons]
    rename_i h
    have := List.IsPrefix.length_le (List.isPrefixOf_iff_prefix.mp h.1)
    have : pat.length ≠ 0 := fun hl => h.2 (List.eq_nil_of_length_eq_zero hl)
    omega
  · simp

/-- Modelled from the spec: HTML-attribute unescaping, the inverse reading
direction of the escaping of source line 49 in the order the spec states it
(`&quot;` to `"`, `&#39;` to the single quote, `&amp;` to `&`); no such
routine exists in `src/`, the spec introduces it to state the round-trip
property. -/
def htmlUnescape (s : List Char) : List Char :=
  replaceStr ("&amp;".toList) ['&']
    (replaceStr ("&#39;".toList) [Char.ofNat 39]
      (replaceStr ("&quot;".toList) ['"'] s))

/-- Single-pass characterization of `escapeAttr`: the per-character escape
table.  `escapeAttr` equals mapping this table over the input (proved
below); the equality expresses that the ampersands introduced by the later
two replacements are never re-escaped. -/
def escChar (c : Char) : List Char :=
  if c = '&' then "&amp;".toList
  else if c = Char.ofNat 39 then "&#39;".toList
  else if c = '"' then "&quot;".toList
  else [c]

/-- Concatenation of the per-character escapes. -/
def escBlocks : List Char → List Char
  | [] => []
  | c :: cs => escChar c ++ escBlocks cs

/-- Scanner deciding that a string contains no unescaped occurrence of
`&`, the single quote or `"`: every `&` must start one of the three
entities `&amp;`, `&#39;`, `&quot;`, and the quote characters must not
occur at all. -/
def wellEscaped (s : List Char) : Bool :=
  match s with
  | [] => true
  | c :: r =>
    if c = '&' then
      if ("amp;".toList).isPrefixOf r then wellEscaped (r.drop 4)
      else if ("#39;".toList).isPrefixOf r then wellEscaped (r.drop 4)
      else if ("quot;".toList).isPrefixOf r then wellEscaped (r.drop 5)
      else false
    else if c = Char.ofNat 39 then false
    else if c = '"' then false
    else wellEscaped r
termination_by s.length
decreasing_by
  all_goals
    simp only [List.length_drop, List.length_cons]
    omega

/-- JSON insignificant whitespace. -/
def isJsonWS (c : Char) : Bool :=
  c = ' ' || c = '\t' || c = '\n' || c = '\r'

/-- ASCII decimal digit test. -/
def isJsonDigit (c : Char) : Bool :=
  48 ≤ c.toNat && c.toNat ≤ 57

/-- Skip insignificant whitespace. -/
def skipSpaces : List Char → List Char
  | [] => []
  | c :: cs => if isJsonWS c then skipSpaces cs else c :: cs

/-- Value of a hexadecimal digit character. -/
def hexVal (c : Char) : Option Nat :=
  if 48 ≤ c.toNat ∧ c.toNat ≤ 57 then some (c.toNat - 48)
  else if 97 ≤ c.toNat ∧ c.toNat ≤ 102 then some (c.toNat - 87)
  else if 65 ≤ c.toNat ∧ c.toNat ≤ 70 then some (c.toNat - 55)
  else none

/-- Named JSON string escapes. -/
def unescChar (e : Char) : Option Char :=
  if e = '"' then some '"'
  else if e = '\\' then some '\\'
  else if e = '/' then some '/'
  else if e = 'n' then some '\n'
  else if e = 't' then some '\t'
  else if e = 'r' then some '\r'
  else if e = 'b' then some '\x08'
  else if e = 'f' then some '\x0c'
  else none

mutual

/-- Parse the remainder of a JSON string literal after its opening quote,
returning the decoded characters and the input after the closing quote. -/
def parseStrBody : List Char → Option (List Char × List Char)
  | [] => none
  | c :: r =>
    if c = '"' then some ([], r)
    else if c = '\\' then parseStrEsc r
    else (parseStrBody r).map fun p => (c :: p.1, p.2)
termination_by structural s => s

/-- Parse a string escape after the backslash. -/
def parseStrEsc : List Char → Option (List Char × List Char)
  | [] => none
  | e :: r1 =>
    if e = 'u' then parseStrHex r1
    else
      match unescChar e with
      | some u => (parseStrBody r1).map fun p => (u :: p.1, p.2)
      | none => none
termination_by structural s => s

/-- Parse the four hex digits of a `\u` escape. -/
def parseStrHex : List Char → Option (List Char × List Char)
  | h1 :: h2 :: h3 :: h4 :: r2 => do
    let a ← hexVal h1
    let b ← hexVal h2
    let u ← hexVal h3
    let d ← hexVal h4
    let p ← parseStrBody r2
    some (Char.ofNat (((a * 16 + b) * 16 + u) * 16 + d) :: p.1, p.2)
  | _ => none
termination_by structural s => s

end

/-- Parse a nonempty run of decimal digits as a natural number. -/
def parseNatNum (s : List Char) : Option (Nat × List Char) :=
  let ds := s.takeWhile isJsonDigit
  if ds = [] then none
  else some (ds.foldl (fun a c => a * 10 + (c.toNat - 48)) 0, s.dropWhile isJsonDigit)

mutual

/-- Recursive-descent JSON value reader (restricted to the value domain of
`Yaml`: integers only, as `jsonDumps` never emits fractions or exponents).
The fuel only bounds the recursion depth; `jsonParse` supplies the input
length, which always suffices. -/
def parseVal : Nat → List Char → Option (Yaml × List Char)
  | 0, _ => none
  | fuel + 1, s =>
    match skipSpaces s with
    | [] => none
    | c :: r =>
      if c = 'n' then
        match r with
        | 'u' :: 'l' :: 'l' :: r1 => some (Yaml.null, r1)
        | _ => none
      else if c = 't' then
        match r with
        | 'r' :: 'u' :: 'e' :: r1 => some (Yaml.bool true, r1)
        | _ => none
      else if c = 'f' then
        match r with
        | 'a' :: 'l' :: 's' :: 'e' :: r1 => some (Yaml.bool false, r1)
        | _ => none
      else if c = '"' then
        (parseStrBody r).map fun p => (Yaml.str p.1, p.2)
      else if c = '[' then
        match skipSpaces r with
        | [] => none
        | d :: r1 =>
          if d = ']' then some (Yaml.arr [], r1)
          else (parseElems fuel (d :: r1)).map fun p => (Yaml.arr p.1, p.2)
      else if c = '{' then
        match skipSpaces r with
        | [] => none
        | d :: r1 =>
          if d = '}' then some (Yaml.map [], r1)
          else (parseMembers fuel (d :: r1)).map fun p => (Yaml.map p.1, p.2)
      else if c = '-' then
        (parseNatNum r).map fun p => (Yaml.int (-(p.1 : Int)), p.2)
      else if isJsonDigit c then
        (parseNatNum (c :: r)).map fun p => (Yaml.int (p.1 : Int), p.2)
      else none
termination_by structural fuel _ => fuel

/-- Parse the elements of a nonempty JSON array after its `[`. -/
def parseElems : Nat → List Char → Option (List Yaml × List Char)
  | 0, _ => none
  | fuel + 1, s => do
    let (v, r) ← parseVal fuel s
    match skipSpaces r with
    | [] => none
    | d :: r1 =>
      if d = ',' then (parseElems fuel r1).map fun p => (v :: p.1, p.2)
      else if d = ']' then some ([v], r1)
      else none
termination_by structural fuel _ => fuel

/-- Parse the members of a nonempty JSON object after its `{`. -/
def parseMembers : Nat → List Char → Option (List (List Char × Yaml) × List Char)
  | 0, _ => none
  | fuel + 1, s =>
    match skipSpaces s with
    | [] => none
    | c :: r =>
      if c = '"' then do
        let (k, r1) ← parseStrBody r
        match skipSpaces r1 with
        | [] => none
        | d :: r2 =>
          if d = ':' then do
            let (v, r3) ← parseVal fuel r2
            match skipSpaces r3 with
            | [] => none
            | e :: r4 =>
              if e = ',' then (parseMembers fuel r4).map fun p => ((k, v) :: p.1, p.2)
              else if e = '}' then some ([(k, v)], r4)
              else none
          else none
      else none
termination_by structural fuel _ => fuel

end

/-- Parse a complete JSON text into a `Yaml` value, requiring the whole
input to be consumed. -/
def jsonParse (s : List Char) : Option Yaml :=
  match parseVal s.length s with
  | some (v, r) => if r = [] then some v else none
  | none => none

/-! Lemmas about the attribute escaping of source line 49. -/

theorem replaceChar_append (t : Char) (rep xs ys : List Char) :
    replaceChar t rep (xs ++ ys) = replaceChar t rep xs ++ replaceChar t rep ys := by
  induction xs with
  | nil => rfl
  | cons c cs ih => simp [replaceChar, ih]

theorem escapeAttr_cons (c : Char) (cs : List Char) :
    escapeAttr (c :: cs) = escChar c ++ escapeAttr cs := by
  show replaceChar '"' _ (replaceChar (Char.ofNat 39) _ (replaceChar '&' _ (c :: cs))) = _
  rw [show replaceChar '&' ("&amp;".toList) (c :: cs) =
        (if c = '&' then "&amp;".toList else [c]) ++
          replaceChar '&' ("&amp;".toList) cs from rfl]
  rw [replaceChar_append, replaceChar_append]
  by_cases h1 : c = '&'
  · subst h1; rfl
  · rw [if_neg h1]
    by_cases h2 : c = Char.ofNat 39
    · subst h2; rfl
    · by_cases h3 : c = '"'
      · subst h3; rfl
      · show replaceChar '"' _ (replaceChar (Char.ofNat 39) _ [c]) ++ _ = _
        rw [show replaceChar (Char.ofNat 39) ("&#39;".toList) [c] =
              (if c = Char.ofNat 39 then "&#39;".toList else [c]) ++ [] from rfl]
        rw [if_neg h2, List.append_nil]
        rw [show replaceChar '"' ("&quot;".toList) [c] =
              (if c = '"' then "&quot;".toList else [c]) ++ [] from rfl]
        rw [if_neg h3, List.append_nil]
        simp [escChar, escapeAttr, h1, h2, h3]

/-- The three chained replacements of source line 49 are a single
left-to-right pass over the JSON text: later replacements never rewrite
the output of earlier ones. -/
theorem escapeAttr_eq_escBlocks (s : List Char) : escapeAttr s = escBlocks s := by
  induction s with
  | nil => rfl
  | cons c cs ih => rw [escapeAttr_cons, ih]; rfl

theorem replaceStr_nil (pat rep : List Char) : replaceStr pat rep [] = [] := by
  rw [replaceStr]

theorem replaceStr_nomatch (pat rep : List Char) (c : Char) (cs : List Char)
    (h : ¬ (pat.isPrefixOf (c :: cs) = true)) :
    replaceStr pat rep (c :: cs) = c :: replaceStr pat rep cs := by
  rw [replaceStr, if_neg (fun hc => h hc.1)]

theorem replaceStr_match (pat rep t : List Char) (hp : pat ≠ []) :
    replaceStr pat rep (pat ++ t) = rep ++ replaceStr pat rep t := by
  obtain ⟨c, cs, hcc⟩ : ∃ c cs, pat = c :: cs := by
    cases pat with
    | nil => exact absurd rfl hp
    | cons c cs => exact ⟨c, cs, rfl⟩
  have hsplit : pat ++ t = c :: (cs ++ t) := by rw [hcc]; rfl
  rw [hsplit, replaceStr]
  rw [if_pos]
  · rw [← hsplit, List.drop_left]
  · constructor
    · rw [← hsplit]
      exact List.isPrefixOf_iff_prefix.mpr (List.prefix_append pat t)
    · exact hp

/-- Per-character state after undoing the `&quot;` replacement. -/
def esc2 (c : Char) : List Char :=
  if c = '&' then "&amp;".toList
  else if c = Char.ofNat 39 then "&#39;".toList
  else [c]

/-- Concatenation of `esc2` over a string. -/
def esc2Blocks : List Char → List Char
  | [] => []
  | c :: cs => esc2 c ++ esc2Blocks cs

/-- Per-character state after also undoing the `&#39;` replacement. -/
def esc3 (c : Char) : List Char :=
  if c = '&' then "&amp;".toList else [c]

/-- Concatenation of `esc3` over a string. -/
def esc3Blocks : List Char → List Char
  | [] => []
  | c :: cs => esc3 c ++ esc3Blocks cs

theorem unesc_quot (s : List Char) :
    replaceStr ("&quot;".toList) ['"'] (escBlocks s) = esc2Blocks s := by
  induction s with
  | nil => exact replaceStr_nil _ _
  | cons c cs ih =>
    show replaceStr _ _ (escChar c ++ escBlocks cs) = esc2 c ++ esc2Blocks cs
    by_cases h1 : c = '&'
    · subst h1
      rw [show escChar '&' ++ escBlocks cs = '&' :: 'a' :: 'm' :: 'p' :: ';' ::escBlocks cs from rfl]
      rw [replaceStr_nomatch _ _ _ _ (by simp [List.isPrefixOf])]
      rw [replaceStr_nomatch _ _ _ _ (by simp [List.isPrefixOf])]
      rw [replaceStr_nomatch _ _ _ _ (by simp [List.isPrefixOf])]
      rw [replaceStr_nomatch _ _ _ _ (by simp [List.isPrefixOf])]
      rw [replaceStr_nomatch _ _ _ _ (by simp [List.isPrefixOf])]
      rw [ih]
      rfl
    · by_cases h2 : c = Char.ofNat 39
      · subst h2
        rw [show escChar (Char.ofNat 39) ++ escBlocks cs =
              '&' :: '#' :: '3' :: '9' :: ';' ::escBlocks cs from rfl]
        rw [replaceStr_nomatch _ _ _ _ (by simp [List.isPrefixOf])]
        rw [replaceStr_nomatch _ _ _ _ (by simp [List.isPrefixOf])]
        rw [replaceStr_nomatch _ _ _ _ (by simp [List.isPrefixOf])]
        rw [replaceStr_nomatch _ _ _ _ (by simp [List.isPrefixOf])]
        rw [replaceStr_nomatch _ _ _ _ (by simp [List.isPrefixOf])]
        rw [ih]
        rfl
      · by_cases h3 : c = '"'
        · subst h3
          rw [show escChar '"' ++ escBlocks cs = "&quot;".toList ++ escBlocks cs from rfl]
          rw [replaceStr_match _ _ _ (by simp), ih]
          rfl
        · rw [show escChar c = [c] from by simp [escChar, h1, h2, h3]]
          rw [List.cons_append, List.nil_append]
          rw [replaceStr_nomatch _ _ _ _ (by
            simp only [List.isPrefixOf, show "&quot;".toList =
              '&' :: 'q' :: 'u' :: 'o' :: 't' :: ';' ::([] : List Char) from rfl]
            simp only [Bool.and_eq_true, beq_iff_eq]
            exact fun hc => h1 hc.1.symm)]
          rw [ih]
          rw [show esc2 c = [c] from by simp [esc2, h1, h2]]
          rfl

theorem unesc_apos (s : List Char) :
    replaceStr ("&#39;".toList) [Char.ofNat 39] (esc2Blocks s) = esc3Blocks s := by
  induction s with
  | nil => exact replaceStr_nil _ _
  | cons c cs ih =>
    show replaceStr _ _ (esc2 c ++ esc2Blocks cs) = esc3 c ++ esc3Blocks cs
    by_cases h1 : c = '&'
    · subst h1
      rw [show esc2 '&' ++ esc2Blocks cs = '&' :: 'a' :: 'm' :: 'p' :: ';' ::esc2Blocks cs from rfl]
      rw [replaceStr_nomatch _ _ _ _ (by simp [List.isPrefixOf])]
      rw [replaceStr_nomatch _ _ _ _ (by simp [List.isPrefixOf])]
      rw [replaceStr_nomatch _ _ _ _ (by simp [List.isPrefixOf])]
      rw [replaceStr_nomatch _ _ _ _ (by simp [List.isPrefixOf])]
      rw [replaceStr_nomatch _ _ _ _ (by simp [List.isPrefixOf])]
      rw [ih]
      rfl
    · by_cases h2 : c = Char.ofNat 39
      · subst h2
        rw [show esc2 (Char.ofNat 39) ++ esc2Blocks cs =
              "&#39;".toList ++ esc2Blocks cs from rfl]
        rw [replaceStr_match _ _ _ (by simp), ih]
        rfl
      · rw [show esc2 c = [c] from by simp [esc2, h1, h2]]
        rw [List.cons_append, List.nil_append]
        rw [replaceStr_nomatch _ _ _ _ (by
          simp only [List.isPrefixOf, show "&#39;".toList =
            '&' :: '#' :: '3' :: '9' :: ';' ::([] : List Char) from rfl]
          simp only [Bool.and_eq_true, beq_iff_eq]
          exact fun hc => h1 hc.1.symm)]
        rw [ih]
        rw [show esc3 c = [c] from by simp [esc3, h1]]
        rfl

theorem unesc_amp (s : List Char) :
    replaceStr ("&amp;".toList) ['&'] (esc3Blocks s) = s := by
  induction s with
  | nil => exact replaceStr_nil _ _
  | cons c cs ih =>
    show replaceStr _ _ (esc3 c ++ esc3Blocks cs) = c :: cs
    by_cases h1 : c = '&'
    · subst h1
      rw [show esc3 '&' ++ esc3Blocks cs = "&amp;".toList ++ esc3Blocks cs from rfl]
      rw [replaceStr_match _ _ _ (by simp), ih]
      rfl
    · rw [show esc3 c = [c] from by simp [esc3, h1]]
      rw [List.cons_append, List.nil_append]
      rw [replaceStr_nomatch _ _ _ _ (by
        simp only [List.isPrefixOf, show "&amp;".toList =
          '&' :: 'a' :: 'm' :: 'p' :: ';' ::([] : List Char) from rfl]
        simp only [Bool.and_eq_true, beq_iff_eq]
        exact fun hc => h1 hc.1.symm)]
      rw [ih]

/-- Unescaping the attribute text recovers the JSON text exactly. -/
theorem htmlUnescape_escapeAttr (s : List Char) :
    htmlUnescape (escapeAttr s) = s := by
  show replaceStr _ _ (replaceStr _ _ (replaceStr _ _ (escapeAttr s))) = s
  rw [escapeAttr_eq_escBlocks, unesc_quot, unesc_apos, unesc_amp]

theorem wellEscaped_amp (X : List Char) :
    wellEscaped ('&' :: 'a' :: 'm' :: 'p' :: ';' ::X) = wellEscaped X := by
  rw [wellEscaped.eq_def]
  dsimp only
  rw [if_pos rfl]
  rw [if_pos (by
    simp [List.isPrefixOf, show "amp;".toList = 'a' :: 'm' :: 'p' :: ';' ::([] : List Char) from rfl])]
  rfl

theorem wellEscaped_aposEnt (X : List Char) :
    wellEscaped ('&' :: '#' :: '3' :: '9' :: ';' ::X) = wellEscaped X := by
  rw [wellEscaped.eq_def]
  dsimp only
  rw [if_pos rfl]
  rw [if_neg (by simp [List.isPrefixOf])]
  rw [if_pos (by
    simp [List.isPrefixOf, show "#39;".toList = '#' :: '3' :: '9' :: ';' ::([] : List Char) from rfl])]
  rfl

theorem wellEscaped_quotEnt (X : List Char) :
    wellEscaped ('&' :: 'q' :: 'u' :: 'o' :: 't' :: ';' ::X) = wellEscaped X := by
  rw [wellEscaped.eq_def]
  dsimp only
  rw [if_pos rfl]
  rw [if_neg (by simp [List.isPrefixOf])]
  rw [if_neg (by simp [List.isPrefixOf])]
  rw [if_pos (by
    simp [List.isPrefixOf, show "quot;".toList =
      'q' :: 'u' :: 'o' :: 't' :: ';' ::([] : List Char) from rfl])]
  rfl

theorem wellEscaped_other (c : Char) (X : List Char) (h1 : ¬ c = '&')
    (h2 : ¬ c = Char.ofNat 39) (h3 : ¬ c = '"') :
    wellEscaped (c :: X) = wellEscaped X := by
  rw [wellEscaped.eq_def]
  dsimp only
  rw [if_neg h1, if_neg h2, if_neg h3]

theorem wellEscaped_escBlocks (s : List Char) : wellEscaped (escBlocks s) = true := by
  induction s with
  | nil =>
    rw [show escBlocks [] = ([] : List Char) from rfl, wellEscaped.eq_def]
  | cons c cs ih =>
    show wellEscaped (escChar c ++ escBlocks cs) = true
    by_cases h1 : c = '&'
    · subst h1
      rw [show escChar '&' ++ escBlocks cs = '&' :: 'a' :: 'm' :: 'p' :: ';' ::escBlocks cs from rfl]
      rw [wellEscaped_amp]
      exact ih
    · by_cases h2 : c = Char.ofNat 39
      · subst h2
        rw [show escChar (Char.ofNat 39) ++ escBlocks cs =
              '&' :: '#' :: '3' :: '9' :: ';' ::escBlocks cs from rfl]
        rw [wellEscaped_aposEnt]
        exact ih
      · by_cases h3 : c = '"'
        · subst h3
          rw [show escChar '"' ++ escBlocks cs =
                '&' :: 'q' :: 'u' :: 'o' :: 't' :: ';' ::escBlocks cs from rfl]
          rw [wellEscaped_quotEnt]
          exact ih
        · rw [show escChar c = [c] from by simp [escChar, h1, h2, h3]]
          rw [List.cons_append, List.nil_append, wellEscaped_other c _ h1 h2 h3]
          exact ih

theorem apos_not_mem_escChar (c : Char) : Char.ofNat 39 ∉ escChar c := by
  unfold escChar
  by_cases h1 : c = '&'
  · rw [if_pos h1]; decide
  · rw [if_neg h1]
    by_cases h2 : c = Char.ofNat 39
    · rw [if_pos h2]; decide
    · rw [if_neg h2]
      by_cases h3 : c = '"'
      · rw [if_pos h3]; decide
      · rw [if_neg h3]
        simp only [List.mem_singleton]
        exact fun hq => h2 hq.symm

theorem quot_not_mem_escChar (c : Char) : '"' ∉ escChar c := by
  unfold escChar
  by_cases h1 : c = '&'
  · rw [if_pos h1]; decide
  · rw [if_neg h1]
    by_cases h2 : c = Char.ofNat 39
    · rw [if_pos h2]; decide
    · rw [if_neg h2]
      by_cases h3 : c = '"'
      · rw [if_pos h3]; decide
      · rw [if_neg h3]
        simp only [List.mem_singleton]
        exact fun hq => h3 hq.symm

theorem apos_not_mem_escBlocks (s : List Char) : Char.ofNat 39 ∉ escBlocks s := by
  induction s with
  | nil => simp [escBlocks]
  | cons c cs ih =>
    show Char.ofNat 39 ∉ escChar c ++ escBlocks cs
    rw [List.mem_append]
    rintro (hc | hc)
    · exact apos_not_mem_escChar c hc
    · exact ih hc

theorem quot_not_mem_escBlocks (s : List Char) : '"' ∉ escBlocks s := by
  induction s with
  | nil => simp [escBlocks]
  | cons c cs ih =>
    show '"' ∉ escChar c ++ escBlocks cs
    rw [List.mem_append]
    rintro (hc | hc)
    · exact quot_not_mem_escChar c hc
    · exact ih hc

/-! Lemmas about the JSON serialization and its parser. -/

theorem digitChar_toNat (m : Nat) (h : m < 10) :
    (Char.ofNat (48 + m)).toNat = 48 + m := by
  interval_cases m <;> decide

theorem isJsonDigit_digitChar (m : Nat) (h : m < 10) :
    isJsonDigit (Char.ofNat (48 + m)) = true := by
  interval_cases m <;> decide

theorem hexVal_hexDigit (k : Nat) (h : k < 16) :
    hexVal (hexDigit k) = some k := by
  interval_cases k <;> decide

theorem isJsonDigit_toNat {c : Char} (h : isJsonDigit c = true) :
    48 ≤ c.toNat ∧ c.toNat ≤ 57 := by
  simpa [isJsonDigit] using h

theorem digit_ne {c x : Char} (h : isJsonDigit c = true)
    (hx : ¬ (48 ≤ x.toNat ∧ x.toNat ≤ 57)) : c ≠ x := by
  obtain ⟨h1, h2⟩ := isJsonDigit_toNat h
  intro hc
  subst hc
  exact hx ⟨h1, h2⟩

theorem digit_not_ws {c : Char} (h : isJsonDigit c = true) :
    isJsonWS c = false := by
  obtain ⟨h1, h2⟩ := isJsonDigit_toNat h
  simp only [isJsonWS, Bool.or_eq_false_iff, decide_eq_false_iff_not]
  refine ⟨⟨⟨?_, ?_⟩, ?_⟩, ?_⟩ <;>
    (intro hc; subst hc; revert h1 h2; decide)

theorem natDigitsAux_digits (fuel : Nat) :
    ∀ n, n < fuel → ∀ c ∈ natDigitsAux fuel n, isJsonDigit c = true := by
  induction fuel with
  | zero => intro n hn; omega
  | succ f ih =>
    intro n _ c hc
    rw [natDigitsAux] at hc
    by_cases h10 : n < 10
    · rw [if_pos h10] at hc
      rw [List.mem_singleton] at hc
      subst hc
      exact isJsonDigit_digitChar n h10
    · rw [if_neg h10] at hc
      rw [List.mem_append] at hc
      rcases hc with hc | hc
      · exact ih (n / 10) (by omega) c hc
      · rw [List.mem_singleton] at hc
        subst hc
        exact isJsonDigit_digitChar (n % 10) (by omega)

theorem natDigitsAux_ne_nil (fuel n : Nat) (h : n < fuel) :
    natDigitsAux fuel n ≠ [] := by
  cases fuel with
  | zero => omega
  | succ f =>
    rw [natDigitsAux]
    by_cases h10 : n < 10
    · rw [if_pos h10]; simp
    · rw [if_neg h10]; simp

theorem natDigitsAux_foldl (fuel : Nat) :
    ∀ n, n < fuel → ∀ acc : Nat,
      (natDigitsAux fuel n).foldl (fun a c => a * 10 + (c.toNat - 48)) acc =
        acc * 10 ^ (natDigitsAux fuel n).length + n := by
  induction fuel with
  | zero => intro n hn; omega
  | succ f ih =>
    intro n hn acc
    rw [natDigitsAux]
    by_cases h10 : n < 10
    · rw [if_pos h10]
      simp only [List.foldl_cons, List.foldl_nil, List.length_singleton, pow_one]
      rw [digitChar_toNat n h10]
      omega
    · rw [if_neg h10]
      rw [List.foldl_append, List.length_append]
      simp only [List.foldl_cons, List.foldl_nil, List.length_singleton]
      rw [ih (n / 10) (by omega) acc]
      rw [digitChar_toNat (n % 10) (by omega)]
      rw [pow_succ]
      have hmod : 48 + n % 10 - 48 = n % 10 := by omega
      rw [hmod]
      have := Nat.div_add_mod n 10
      ring_nf
      omega

/-- Input whose head is not a decimal digit (so that a digit run ending at
its boundary is maximal). -/
def noDigitHead : List Char → Bool
  | [] => true
  | c :: _ => !(isJsonDigit c)

theorem parseNatNum_natDigits (n : Nat) (rest : List Char)
    (h : noDigitHead rest = true) :
    parseNatNum (natDigits n ++ rest) = some (n, rest) := by
  have hd : ∀ c ∈ natDigits n, isJsonDigit c = true :=
    natDigitsAux_digits (n + 1) n (by omega)
  have htw : (natDigits n ++ rest).takeWhile isJsonDigit = natDigits n := by
    rw [List.takeWhile_append_of_pos hd]
    have : rest.takeWhile isJsonDigit = [] := by
      cases rest with
      | nil => rfl
      | cons c cs =>
        rw [List.takeWhile_cons]
        simp only [noDigitHead, Bool.not_eq_true'] at h
        rw [h]
        simp
    rw [this, List.append_nil]
  have hdw : (natDigits n ++ rest).dropWhile isJsonDigit = rest := by
    rw [List.dropWhile_append_of_pos hd]
    cases rest with
    | nil => rfl
    | cons c cs =>
      rw [List.dropWhile_cons]
      simp only [noDigitHead, Bool.not_eq_true'] at h
      rw [h]
      simp
  rw [parseNatNum]
  simp only [htw, hdw]
  rw [show natDigits n = natDigitsAux (n + 1) n from rfl]
  rw [if_neg (natDigitsAux_ne_nil (n + 1) n (by omega))]
  rw [natDigitsAux_foldl (n + 1) n (by omega) 0]
  simp

theorem parseStrBody_escape (cs : List Char) : ∀ rest : List Char,
    parseStrBody (jsonEscapeStr cs ++ '"' :: rest) = some (cs, rest) := by
  induction cs with
  | nil => intro rest; rfl
  | cons c cs ih =>
    intro rest
    show parseStrBody (jsonEscapeChar c ++ jsonEscapeStr cs ++ '"' :: rest) = _
    by_cases h1 : c = '"'
    · subst h1
      rw [show jsonEscapeChar '"' = ['\\', '"'] from rfl]
      simp only [List.cons_append, List.nil_append]
      simp only [parseStrBody, parseStrEsc, unescChar]
      rw [ih rest]
      simp
    · by_cases h2 : c = '\\'
      · subst h2
        rw [show jsonEscapeChar '\\' = ['\\', '\\'] from rfl]
        simp only [List.cons_append, List.nil_append]
        simp only [parseStrBody, parseStrEsc, unescChar]
        rw [ih rest]
        simp
      · by_cases h3 : c = '\n'
        · subst h3
          rw [show jsonEscapeChar '\n' = ['\\', 'n'] from rfl]
          simp only [List.cons_append, List.nil_append]
          simp only [parseStrBody, parseStrEsc, unescChar]
          rw [ih rest]
          simp
        · by_cases h4 : c = '\t'
          · subst h4
            rw [show jsonEscapeChar '\t' = ['\\', 't'] from rfl]
            simp only [List.cons_append, List.nil_append]
            simp only [parseStrBody, parseStrEsc, unescChar]
            rw [ih rest]
            simp
          · by_cases h5 : c = '\r'
            · subst h5
              rw [show jsonEscapeChar '\r' = ['\\', 'r'] from rfl]
              simp only [List.cons_append, List.nil_append]
              simp only [parseStrBody, parseStrEsc, unescChar]
              rw [ih rest]
              simp
            · by_cases h6 : c = '\x08'
              · subst h6
                rw [show jsonEscapeChar '\x08' = ['\\', 'b'] from rfl]
                simp only [List.cons_append, List.nil_append]
                simp only [parseStrBody, parseStrEsc, unescChar]
                rw [ih rest]
                simp
              · by_cases h7 : c = '\x0c'
                · subst h7
                  rw [show jsonEscapeChar '\x0c' = ['\\', 'f'] from rfl]
                  simp only [List.cons_append, List.nil_append]
                  simp only [parseStrBody, parseStrEsc, unescChar]
                  rw [ih rest]
                  simp
                · by_cases h8 : c.toNat < 32
                  · rw [show jsonEscapeChar c =
                          ['\\', 'u', '0', '0', hexDigit (c.toNat / 16),
                           hexDigit (c.toNat % 16)] from by
                        simp [jsonEscapeChar, h1, h2, h3, h4, h5, h6, h7, h8]]
                    simp only [List.cons_append, List.nil_append]
                    rw [show parseStrBody ('\\' :: 'u' :: '0' :: '0' :: hexDigit (c.toNat / 16)::hexDigit (c.toNat % 16):: (jsonEscapeStr cs ++ '"' :: rest)) =
                        (hexVal (hexDigit (c.toNat / 16))).bind (fun u =>
                          (hexVal (hexDigit (c.toNat % 16))).bind (fun d =>
                            (parseStrBody (jsonEscapeStr cs ++ '"' :: rest)).bind (fun p =>
                              some (Char.ofNat (((0 * 16 + 0) * 16 + u) * 16 + d) :: p.1,
                                p.2)))) from rfl]
                    rw [hexVal_hexDigit (c.toNat / 16) (by omega)]
                    rw [hexVal_hexDigit (c.toNat % 16) (by omega)]
                    simp only [Option.some_bind]
                    rw [ih rest]
                    simp only [Option.some_bind]
                    have hchar : Char.ofNat
                        (((0 * 16 + 0) * 16 + c.toNat / 16) * 16 + c.toNat % 16) = c := by
                      rw [show ((0 * 16 + 0) * 16 + c.toNat / 16) * 16 + c.toNat % 16
                            = c.toNat from by omega, Char.ofNat_toNat]
                    rw [hchar]
                  · rw [show jsonEscapeChar c = [c] from by
                        simp [jsonEscapeChar, h1, h2, h3, h4, h5, h6, h7, h8]]
                    simp only [List.cons_append, List.nil_append]
                    simp only [parseStrBody]
                    rw [if_neg h1, if_neg h2]
                    rw [ih rest]
                    simp

theorem skipSpaces_cons_nonws {c : Char} (t : List Char) (h : isJsonWS c = false) :
    skipSpaces (c :: t) = c :: t := by simp [skipSpaces, h]

theorem parseVal_space (fuel : Nat) (s : List Char) :
    parseVal fuel (' ' :: s) = parseVal fuel s := by
  cases fuel with
  | zero => rfl
  | succ f => rfl

theorem parseMembers_space (fuel : Nat) (s : List Char) :
    parseMembers fuel (' ' :: s) = parseMembers fuel s := by
  cases fuel with
  | zero => rfl
  | succ f => rfl

theorem parseVal_succ_str (f : Nat) (X : List Char) :
    parseVal (f + 1) ('"' :: X) =
      (parseStrBody X).map fun p => (Yaml.str p.1, p.2) := rfl

theorem parseVal_succ_arr (f : Nat) (X : List Char) :
    parseVal (f + 1) ('[' :: X) =
      (match skipSpaces X with
       | [] => none
       | d :: r1 =>
         if d = ']' then some (Yaml.arr [], r1)
         else (parseElems f (d :: r1)).map fun p => (Yaml.arr p.1, p.2)) := rfl

theorem parseVal_succ_obj (f : Nat) (X : List Char) :
    parseVal (f + 1) ('{' :: X) =
      (match skipSpaces X with
       | [] => none
       | d :: r1 =>
         if d = '}' then some (Yaml.map [], r1)
         else (parseMembers f (d :: r1)).map fun p => (Yaml.map p.1, p.2)) := rfl

theorem parseVal_succ_neg (f : Nat) (X : List Char) :
    parseVal (f + 1) ('-' :: X) =
      (parseNatNum X).map fun p => (Yaml.int (-(p.1 : Int)), p.2) := rfl

theorem parseVal_succ_digit (f : Nat) (d : Char) (X : List Char)
    (hd : isJsonDigit d = true) :
    parseVal (f + 1) (d :: X) =
      (parseNatNum (d :: X)).map fun p => (Yaml.int (p.1 : Int), p.2) := by
  rw [parseVal]
  rw [skipSpaces_cons_nonws X (digit_not_ws hd)]
  dsimp only
  rw [if_neg (digit_ne hd (by decide)), if_neg (digit_ne hd (by decide)),
    if_neg (digit_ne hd (by decide)), if_neg (digit_ne hd (by decide)),
    if_neg (digit_ne hd (by decide)), if_neg (digit_ne hd (by decide)),
    if_neg (digit_ne hd (by decide)), if_pos hd]

theorem parseElems_succ (f : Nat) (s : List Char) :
    parseElems (f + 1) s =
      (parseVal f s).bind fun p =>
        match skipSpaces p.2 with
        | [] => none
        | d :: r1 =>
          if d = ',' then (parseElems f r1).map fun q => (p.1 :: q.1, q.2)
          else if d = ']' then some ([p.1], r1)
          else none := rfl

theorem parseMembers_succ_quot (f : Nat) (R : List Char) :
    parseMembers (f + 1) ('"' :: R) =
      (parseStrBody R).bind fun kp =>
        match skipSpaces kp.2 with
        | [] => none
        | d :: r2 =>
          if d = ':' then
            (parseVal f r2).bind fun vp =>
              match skipSpaces vp.2 with
              | [] => none
              | e :: r4 =>
                if e = ',' then
                  (parseMembers f r4).map fun q => ((kp.1, vp.1) :: q.1, q.2)
                else if e = '}' then some ([(kp.1, vp.1)], r4)
                else none
          else none := rfl

theorem parseElems_space (fuel : Nat) (s : List Char) :
    parseElems fuel (' ' :: s) = parseElems fuel s := by
  cases fuel with
  | zero => rfl
  | succ f => rw [parseElems_succ, parseElems_succ, parseVal_space]

theorem natDigitsAux_head (fuel : Nat) : ∀ n, n < fuel →
    ∃ c t, natDigitsAux fuel n = c :: t ∧ isJsonDigit c = true := by
  induction fuel with
  | zero => intro n hn; omega
  | succ f ih =>
    intro n hn
    rw [natDigitsAux]
    by_cases h10 : n < 10
    · rw [if_pos h10]
      exact ⟨_, _, rfl, isJsonDigit_digitChar n h10⟩
    · rw [if_neg h10]
      obtain ⟨c, t, hct, hc⟩ := ih (n / 10) (by omega)
      rw [hct]
      exact ⟨c, _, rfl, hc⟩

theorem jsonDumps_head (v : Yaml) :
    ∃ c t, jsonDumps v = c :: t ∧ isJsonWS c = false ∧ c ≠ ']' ∧ c ≠ '}' := by
  cases v with
  | null => refine ⟨'n', _, rfl, ?_, ?_, ?_⟩ <;> decide
  | bool b =>
    cases b with
    | true => refine ⟨'t', _, rfl, ?_, ?_, ?_⟩ <;> decide
    | false => refine ⟨'f', _, rfl, ?_, ?_, ?_⟩ <;> decide
  | int n =>
    cases n with
    | ofNat m =>
      obtain ⟨c, t, hct, hc⟩ := natDigitsAux_head (m + 1) m (by omega)
      exact ⟨c, t, hct, digit_not_ws hc, digit_ne hc (by decide),
        digit_ne hc (by decide)⟩
    | negSucc m => refine ⟨'-', _, rfl, ?_, ?_, ?_⟩ <;> decide
  | str s => refine ⟨'"', _, rfl, ?_, ?_, ?_⟩ <;> decide
  | arr xs => refine ⟨'[', _, rfl, ?_, ?_, ?_⟩ <;> decide
  | map kvs => refine ⟨'{', _, rfl, ?_, ?_, ?_⟩ <;> decide

theorem jsonDumps_length_pos (v : Yaml) : 1 ≤ (jsonDumps v).length := by
  obtain ⟨c, t, hct, -⟩ := jsonDumps_head v
  rw [hct]
  simp

theorem parse_dumps_all (fuel : Nat) :
    (∀ v rest, (jsonDumps v).length ≤ fuel → noDigitHead rest = true →
       parseVal fuel (jsonDumps v ++ rest) = some (v, rest)) ∧
    (∀ xs rest, xs ≠ [] → (dumpsElems xs).length < fuel →
       parseElems fuel (dumpsElems xs ++ ']' :: rest) = some (xs, rest)) ∧
    (∀ kvs rest, kvs ≠ [] → (dumpsPairs kvs).length < fuel →
       parseMembers fuel (dumpsPairs kvs ++ '}' :: rest) = some (kvs, rest)) := by
  induction fuel with
  | zero =>
    refine ⟨?_, ?_, ?_⟩
    · intro v rest hlen _
      have := jsonDumps_length_pos v
      omega
    · intro xs rest _ hlen
      omega
    · intro kvs rest _ hlen
      omega
  | succ f ih =>
    obtain ⟨ihv, ihe, ihm⟩ := ih
    refine ⟨?_, ?_, ?_⟩
    · intro v rest hlen hnd
      cases v with
      | null => rfl
      | bool b =>
        cases b with
        | true => rfl
        | false => rfl
      | str s =>
        have hsplit : jsonDumps (Yaml.str s) ++ rest
            = '"' :: (jsonEscapeStr s ++ '"' :: rest) := by
          show ('"' :: (jsonEscapeStr s ++ ['"'])) ++ rest = _
          simp
        rw [hsplit, parseVal_succ_str, parseStrBody_escape]
        rfl
      | int n =>
        cases n with
        | ofNat m =>
          obtain ⟨d, t, hdt, hdig⟩ := natDigitsAux_head (m + 1) m (by omega)
          have hjd : jsonDumps (Yaml.int (Int.ofNat m)) ++ rest
              = d :: (t ++ rest) := by
            show natDigits m ++ rest = _
            rw [show natDigits m = natDigitsAux (m + 1) m from rfl, hdt]
            rfl
          rw [hjd, parseVal_succ_digit f d (t ++ rest) hdig]
          rw [show d :: (t ++ rest) = natDigits m ++ rest from by
            rw [show natDigits m = natDigitsAux (m + 1) m from rfl, hdt]
            rfl]
          rw [parseNatNum_natDigits m rest hnd]
          rfl
        | negSucc m =>
          have hjd : jsonDumps (Yaml.int (Int.negSucc m)) ++ rest
              = '-' :: (natDigits (m + 1) ++ rest) := rfl
          rw [hjd, parseVal_succ_neg, parseNatNum_natDigits (m + 1) rest hnd]
          show some (Yaml.int (-((m + 1 : Nat) : Int)), rest) = _
          rw [show (-((m + 1 : Nat) : Int)) = Int.negSucc m from by
            rw [Int.negSucc_eq]
            simp]
      | arr xs =>
        cases xs with
        | nil => rfl
        | cons x xs' =>
          have hsplit : jsonDumps (Yaml.arr (x :: xs')) ++ rest
              = '[' :: (dumpsElems (x :: xs') ++ ']' :: rest) := by
            show ('[' :: (dumpsElems (x :: xs') ++ [']'])) ++ rest = _
            simp
          rw [hsplit, parseVal_succ_arr]
          obtain ⟨c, t, hct, hws, hrb, hrc⟩ := jsonDumps_head x
          obtain ⟨Y, hY⟩ : ∃ Y, dumpsElems (x :: xs') ++ ']' :: rest
              = c :: (t ++ Y) := by
            cases xs' with
            | nil =>
              refine ⟨']' :: rest, ?_⟩
              rw [show dumpsElems [x] = jsonDumps x from rfl, hct]
              rfl
            | cons w ws =>
              refine ⟨',' :: ' ' :: dumpsElems (w :: ws) ++ ']' :: rest, ?_⟩
              rw [show dumpsElems (x :: w :: ws)
                    = jsonDumps x ++ ',' :: ' ' :: dumpsElems (w :: ws) from rfl, hct]
              simp
          rw [hY, skipSpaces_cons_nonws _ hws]
          dsimp only
          rw [if_neg hrb]
          rw [show c :: (t ++ Y) = dumpsElems (x :: xs') ++ ']' :: rest from hY.symm]
          rw [ihe (x :: xs') rest (by simp) (by
            have hlen2 : (jsonDumps (Yaml.arr (x :: xs'))).length
                = (dumpsElems (x :: xs')).length + 2 := by
              show ('[' :: (dumpsElems (x :: xs') ++ [']'])).length = _
              simp
            omega)]
          rfl
      | map kvs =>
        cases kvs with
        | nil => rfl
        | cons kv kvs' =>
          have hsplit : jsonDumps (Yaml.map (kv :: kvs')) ++ rest
              = '{' :: (dumpsPairs (kv :: kvs') ++ '}' :: rest) := by
            show ('{' :: (dumpsPairs (kv :: kvs') ++ ['}'])) ++ rest = _
            simp
          rw [hsplit, parseVal_succ_obj]
          obtain ⟨Y, hY⟩ : ∃ Y, dumpsPairs (kv :: kvs') ++ '}' :: rest
              = '"' :: Y := by
            obtain ⟨k, v⟩ := kv
            cases kvs' with
            | nil =>
              refine ⟨jsonEscapeStr k ++ '"' :: ':' :: ' ' :: jsonDumps v ++ '}' :: rest, ?_⟩
              rw [show dumpsPairs [(k, v)]
                    = '"' :: (jsonEscapeStr k ++ '"' :: ':' :: ' ' :: jsonDumps v) from rfl]
              simp
            | cons p ps =>
              refine ⟨jsonEscapeStr k ++ '"' :: ':' :: ' ' :: jsonDumps v ++
                ',' :: ' ' :: dumpsPairs (p :: ps) ++ '}' :: rest, ?_⟩
              rw [show dumpsPairs ((k, v) :: p :: ps)
                    = '"' :: (jsonEscapeStr k ++ '"' :: ':' :: ' ' :: jsonDumps v) ++
                      ',' :: ' ' :: dumpsPairs (p :: ps) from rfl]
              simp
          rw [hY, skipSpaces_cons_nonws _ (by decide)]
          dsimp only
          rw [if_neg (by decide : ¬ ('"' : Char) = '}')]
          rw [show ('"' : Char) :: Y = dumpsPairs (kv :: kvs') ++ '}' :: rest from hY.symm]
          rw [ihm (kv :: kvs') rest (by simp) (by
            have hlen2 : (jsonDumps (Yaml.map (kv :: kvs'))).length
                = (dumpsPairs (kv :: kvs')).length + 2 := by
              show ('{' :: (dumpsPairs (kv :: kvs') ++ ['}'])).length = _
              simp
            omega)]
          rfl
    · intro xs rest hne hlen
      cases xs with
      | nil => exact absurd rfl hne
      | cons x xs' =>
        rw [parseElems_succ]
        cases xs' with
        | nil =>
          rw [show dumpsElems [x] ++ ']' :: rest = jsonDumps x ++ ']' :: rest from by
            rw [show dumpsElems [x] = jsonDumps x from rfl]]
          rw [ihv x (']' :: rest) (by
            have : (dumpsElems [x]).length = (jsonDumps x).length := by
              rw [show dumpsElems [x] = jsonDumps x from rfl]
            omega) (by rfl)]
          rfl
        | cons w ws =>
          rw [show dumpsElems (x :: w :: ws) ++ ']' :: rest
              = jsonDumps x ++ ',' :: ' ' :: (dumpsElems (w :: ws) ++ ']' :: rest) from by
            rw [show dumpsElems (x :: w :: ws)
                  = jsonDumps x ++ ',' :: ' ' :: dumpsElems (w :: ws) from rfl]
            simp]
          have hlenx : (jsonDumps x).length + 2 + (dumpsElems (w :: ws)).length
              = (dumpsElems (x :: w :: ws)).length := by
            rw [show dumpsElems (x :: w :: ws)
                  = jsonDumps x ++ ',' :: ' ' :: dumpsElems (w :: ws) from rfl]
            simp
            omega
          rw [ihv x (',' :: ' ' :: (dumpsElems (w :: ws) ++ ']' :: rest))
            (by omega) (by rfl)]
          rw [Option.some_bind]
          dsimp only
          rw [skipSpaces_cons_nonws _ (by decide)]
          dsimp only
          rw [if_pos rfl]
          rw [parseElems_space]
          rw [ihe (w :: ws) rest (by simp) (by omega)]
          rfl
    · intro kvs rest hne hlen
      cases kvs with
      | nil => exact absurd rfl hne
      | cons kv kvs' =>
        obtain ⟨k, v⟩ := kv
        have hpair : ∀ TAIL : List Char,
            dumpsPairs [(k, v)] ++ TAIL
              = '"' :: (jsonEscapeStr k ++ '"' :: (':' :: ' ' :: (jsonDumps v ++ TAIL))) := by
          intro TAIL
          rw [show dumpsPairs [(k, v)]
                = '"' :: (jsonEscapeStr k ++ '"' :: ':' :: ' ' :: jsonDumps v) from rfl]
          simp
        cases kvs' with
        | nil =>
          rw [hpair ('}' :: rest)]
          rw [parseMembers_succ_quot]
          rw [parseStrBody_escape]
          rw [Option.some_bind]
          dsimp only
          rw [skipSpaces_cons_nonws _ (by decide)]
          dsimp only
          rw [if_pos rfl]
          rw [parseVal_space]
          have hlv : (jsonDumps v).length ≤ f := by
            have : (dumpsPairs [(k, v)]).length
                = (jsonEscapeStr k).length + 4 + (jsonDumps v).length := by
              rw [show dumpsPairs [(k, v)]
                    = '"' :: (jsonEscapeStr k ++ '"' :: ':' :: ' ' :: jsonDumps v) from rfl]
              simp
              omega
            omega
          rw [ihv v ('}' :: rest) hlv (by rfl)]
          rw [Option.some_bind]
          dsimp only
          rw [skipSpaces_cons_nonws _ (by decide)]
          dsimp only
          rw [if_neg (by decide : ¬ ('}' : Char) = ','), if_pos rfl]
        | cons p ps =>
          have hsplit2 : dumpsPairs ((k, v) :: p :: ps) ++ '}' :: rest
              = '"' :: (jsonEscapeStr k ++ '"' :: (':' :: ' ' :: (jsonDumps v ++
                  ',' :: ' ' :: (dumpsPairs (p :: ps) ++ '}' :: rest)))) := by
            rw [show dumpsPairs ((k, v) :: p :: ps)
                  = '"' :: (jsonEscapeStr k ++ '"' :: ':' :: ' ' :: jsonDumps v) ++
                    ',' :: ' ' :: dumpsPairs (p :: ps) from rfl]
            simp
          rw [hsplit2]
          rw [parseMembers_succ_quot]
          rw [parseStrBody_escape]
          rw [Option.some_bind]
          dsimp only
          rw [skipSpaces_cons_nonws _ (by decide)]
          dsimp only
          rw [if_pos rfl]
          rw [parseVal_space]
          have hlens : (dumpsPairs ((k, v) :: p :: ps)).length
              = (jsonEscapeStr k).length + 4 + (jsonDumps v).length + 2 +
                (dumpsPairs (p :: ps)).length := by
            rw [show dumpsPairs ((k, v) :: p :: ps)
                  = '"' :: (jsonEscapeStr k ++ '"' :: ':' :: ' ' :: jsonDumps v) ++
                    ',' :: ' ' :: dumpsPairs (p :: ps) from rfl]
            simp
            omega
          rw [ihv v (',' :: ' ' :: (dumpsPairs (p :: ps) ++ '}' :: rest))
            (by omega) (by rfl)]
          rw [Option.some_bind]
          dsimp only
          rw [skipSpaces_cons_nonws _ (by decide)]
          dsimp only
          rw [if_pos rfl]
          rw [parseMembers_space]
          rw [ihm (p :: ps) rest (by simp) (by omega)]
          rfl

/-- Parsing the serialized JSON text of any modelled value recovers the
value exactly. -/
theorem jsonParse_jsonDumps (v : Yaml) : jsonParse (jsonDumps v) = some v := by
  rw [jsonParse]
  have h := (parse_dumps_all (jsonDumps v).length).1 v [] (le_refl _) rfl
  rw [List.append_nil] at h
  rw [h]
  simp

/-! Lemmas about the fence matcher and the substitution loop. -/

theorem optionIte {P : Prop} [Decidable P] {α : Type} {x : Option α} {b : α}
    (h : (if P then x else none) = some b) : P ∧ x = some b := by
  by_cases hp : P
  · rw [if_pos hp] at h
    exact ⟨hp, h⟩
  · rw [if_neg hp] at h
    cases h

theorem wsRun_pos {s : List Char} (h : 1 ≤ wsRun s) :
    ∃ w tail, s = w :: tail ∧ isWS w = true := by
  cases s with
  | nil => simp [wsRun] at h
  | cons c cs =>
    refine ⟨c, cs, rfl, ?_⟩
    by_cases hw : isWS c
    · exact hw
    · rw [wsRun, if_neg hw] at h
      omega

theorem tryMatchAt_inv (doc : List Char) (i : Nat) (m : FenceMatch)
    (h : tryMatchAt doc i = some m) :
    m.mstart = i ∧ 3 ≤ m.ticks ∧ m.ticks = tickRun (doc.drop m.mstart) ∧
    doc.get? (m.bodyStart + m.body.length) = some '\n' ∧
    (doc.drop (m.bodyStart + m.body.length + 1)).take m.ticks
      = List.replicate m.ticks '`' ∧
    doc.get? (m.bodyStart + m.body.length + 1 + m.ticks) ≠ some '`' := by
  rw [tryMatchAt] at h
  by_cases hls : lineStartAt doc i
  · rw [if_pos hls] at h
    by_cases h3 : 3 ≤ tickRun (doc.drop i)
    · rw [if_pos h3] at h
      cases hft : fenceTypeAt doc (i + tickRun (doc.drop i)) with
      | none => rw [hft] at h; cases h
      | some t =>
        rw [hft] at h
        obtain ⟨a, ha, hfa⟩ := List.exists_of_findSome?_eq_some h
        obtain ⟨hnl, hinner⟩ := optionIte hfa
        obtain ⟨b, hb, hfb⟩ := List.exists_of_findSome?_eq_some hinner
        obtain ⟨⟨hnl2, hticks⟩, hinner2⟩ := optionIte hfb
        obtain ⟨c, hc, hfc⟩ := List.exists_of_findSome?_eq_some hinner2
        obtain ⟨hend, hsome⟩ := optionIte hfc
        -- positions
        have hm := Option.some.inj hsome
        subst hm
        have hcm : c ≤ wsRun (doc.drop
            (i + tickRun (doc.drop i) + t.length + a + 1 + b + 1 +
              tickRun (doc.drop i))) := by
          rw [List.mem_reverse, List.mem_range] at hc
          omega
        have hblen : ((doc.drop (i + tickRun (doc.drop i) + t.length + a + 1)).take
            b).length = b := by
          rw [List.length_take, List.length_drop]
          have := (List.get?_eq_some.mp hnl2).1
          omega
        refine ⟨rfl, h3, rfl, ?_, ?_, ?_⟩
        · simpa [hblen] using hnl2
        · simpa [hblen] using hticks
        · simp only [hblen]
          cases Nat.eq_zero_or_pos c with
          | inl hc0 =>
            subst hc0
            rcases hend with hend | hend
            · intro hcontra
              rw [Nat.add_zero] at hend
              rw [List.get?_eq_none.mpr (by omega)] at hcontra
              cases hcontra
            · intro hcontra
              rw [Nat.add_zero] at hend
              rw [hend] at hcontra
              cases hcontra
          | inr hcpos =>
            obtain ⟨w, tail, hwt, hw⟩ := wsRun_pos (le_trans hcpos hcm)
            intro hcontra
            have hget : doc.get? (i + tickRun (doc.drop i) + t.length + a + 1 + b + 1 +
                tickRun (doc.drop i)) = some w := by
              have := List.getElem?_drop doc
                (i + tickRun (doc.drop i) + t.length + a + 1 + b + 1 +
                  tickRun (doc.drop i)) 0
              rw [hwt] at this
              simpa using this.symm
            rw [hget] at hcontra
            have hweq : w = '`' := Option.some.inj hcontra
            subst hweq
            rw [show isWS '`' = false from by decide] at hw
            cases hw
    · rw [if_neg h3] at h
      cases h
  · rw [if_neg hls] at h
    cases h

/-- A document in which the pattern matches nowhere is returned unchanged
by the substitution pass. -/
theorem on_page_markdown_no_match (p : YamlLoad) (doc : List Char)
    (h : findFrom doc 0 = none) : on_page_markdown p doc = Except.ok doc := by
  rw [on_page_markdown, subLoop, h]
  rfl

theorem fence_to_html_err (p : YamlLoad) (t body : List Char) (e : YamlErr)
    (h : p body = Except.error e) :
    fence_to_html p t body = Except.ok (warnFragment t) := by
  unfold fence_to_html
  rw [h]

theorem fence_to_html_map (p : YamlLoad) (t body : List Char)
    (kvs : List (List Char × Yaml)) (h : p body = Except.ok (Yaml.map kvs)) :
    fence_to_html p t body = Except.ok (okFragment t kvs) := by
  unfold fence_to_html
  rw [h]

theorem fence_to_html_null (p : YamlLoad) (t body : List Char)
    (h : p body = Except.ok Yaml.null) :
    fence_to_html p t body = Except.ok (okFragment t []) := by
  unfold fence_to_html
  rw [h]

theorem fence_to_html_arr (p : YamlLoad) (t body : List Char) (xs : List Yaml)
    (h : p body = Except.ok (Yaml.arr xs)) :
    fence_to_html p t body = Except.error PyErr.attributeError := by
  unfold fence_to_html
  rw [h]

theorem fence_to_html_str (p : YamlLoad) (t body s : List Char)
    (h : p body = Except.ok (Yaml.str s)) :
    fence_to_html p t body = Except.error PyErr.attributeError := by
  unfold fence_to_html
  rw [h]

/-! Claim theorems. -/

/-- C1: the spec claims `on_page_markdown` never raises and always returns
a string, for every fence body including bodies whose YAML parses to a
non-mapping value such as a list or a bare scalar.  The code violates this:
for the fence body `- a` (a YAML list) and for the bare scalar body
`hello`, `config.get` is called on a non-dict and raises an uncaught
`AttributeError`, so the embedded transformation aborts with an error
instead of returning a string. -/
theorem C1_nonmapping_body_raises :
    on_page_markdown yamlModel ("```quiz\n- a\n```".toList)
      = Except.error PyErr.attributeError ∧
    on_page_markdown yamlModel ("```quiz\nhello\n```".toList)
      = Except.error PyErr.attributeError := by
  constructor
  · rfl
  · rfl

/-- C2: a fence of a recognized type whose body fails YAML parsing is
replaced by exactly the warning admonition naming the fence type, with no
`data-config` attribute and no noscript block, and the rest of the
document is transformed normally. -/
theorem C2_invalid_yaml_fallback :
    (∀ (p : YamlLoad) (t body : List Char) (e : YamlErr),
       p body = Except.error e →
       fence_to_html p t body = Except.ok
         ("<div class=\"admonition warning\"><p>Invalid interactive component configuration (".toList
           ++ t ++ ")</p></div>".toList)) ∧
    on_page_markdown yamlModel ("before\n```quiz\nkey: [unclosed\n```\nafter".toList)
      = Except.ok
        ("before\n<div class=\"admonition warning\"><p>Invalid interactive component configuration (quiz)</p></div>\nafter".toList) := by
  constructor
  · intro p t body e h
    exact fence_to_html_err p t body e h
  · rfl

/-- Witness for C2 at the spec's concrete example: fence type `quiz`, body
`key: [unclosed`. -/
theorem C2_invalid_yaml_fallback_witness :
    fence_to_html yamlModel ("quiz".toList) ("key: [unclosed".toList) = Except.ok
      ("<div class=\"admonition warning\"><p>Invalid interactive component configuration (".toList
        ++ "quiz".toList ++ ")</p></div>".toList) :=
  C2_invalid_yaml_fallback.1 yamlModel ("quiz".toList) ("key: [unclosed".toList)
    YamlErr.parseError rfl

/-- C3: the spec claims a fence whose opening (or closing) delimiter line
is preceded by leading horizontal whitespace is still recognized.  The
code violates this: `FENCE_RE` anchors the backtick run directly at `^`
with no whitespace allowance (even though the comment above it claims
leading-whitespace handling), so an indented opener or closer leaves the
fence untouched for every YAML loader. -/
theorem C3_leading_whitespace_not_recognized :
    (∀ p : YamlLoad, on_page_markdown p (" ```quiz\ntitle: T\n```".toList)
       = Except.ok (" ```quiz\ntitle: T\n```".toList)) ∧
    (∀ p : YamlLoad, on_page_markdown p ("```quiz\ntitle: T\n ```".toList)
       = Except.ok ("```quiz\ntitle: T\n ```".toList)) := by
  constructor
  · intro p
    exact on_page_markdown_no_match p _ rfl
  · intro p
    exact on_page_markdown_no_match p _ rfl

/-- Witness for C3 with the modelled YAML loader. -/
theorem C3_leading_whitespace_witness :
    on_page_markdown yamlModel (" ```quiz\ntitle: T\n```".toList)
      = Except.ok (" ```quiz\ntitle: T\n```".toList) ∧
    on_page_markdown yamlModel ("```quiz\ntitle: T\n ```".toList)
      = Except.ok ("```quiz\ntitle: T\n ```".toList) :=
  ⟨C3_leading_whitespace_not_recognized.1 yamlModel,
   C3_leading_whitespace_not_recognized.2 yamlModel⟩

/-- C4: a closer line of a different delimiter length than the opener
never closes a match — every successful match opens with the maximal
backtick run at its start (at least 3 long) and closes with a line holding
exactly that many backticks; concretely, a fence opened with four
backticks and closed with three is not matched at all, while four/four is
matched and replaced. -/
theorem C4_delimiter_length_discipline :
    (∀ (doc : List Char) (i : Nat) (m : FenceMatch), tryMatchAt doc i = some m →
       m.mstart = i ∧ 3 ≤ m.ticks ∧ m.ticks = tickRun (doc.drop m.mstart) ∧
       doc.get? (m.bodyStart + m.body.length) = some '\n' ∧
       (doc.drop (m.bodyStart + m.body.length + 1)).take m.ticks
         = List.replicate m.ticks '`' ∧
       doc.get? (m.bodyStart + m.body.length + 1 + m.ticks) ≠ some '`') ∧
    (∀ p : YamlLoad, on_page_markdown p ("````quiz\na: 1\n```".toList)
       = Except.ok ("````quiz\na: 1\n```".toList)) ∧
    on_page_markdown yamlModel ("````quiz\na: 1\n````".toList)
      = Except.ok (okFragment ("quiz".toList) [("a".toList, Yaml.int 1)]) := by
  refine ⟨tryMatchAt_inv, ?_, ?_⟩
  · intro p
    exact on_page_markdown_no_match p _ rfl
  · rfl

/-- Witness for C4: the four-backtick fence of the spec's example, where
the matcher reports group spans and the closer run is exactly four
backticks long. -/
theorem C4_delimiter_length_witness :
    0 = 0 ∧ 3 ≤ 4 ∧
    4 = tickRun (("````quiz\na: 1\n````".toList).drop 0) ∧
    ("````quiz\na: 1\n````".toList).get? (9 + 4) = some '\n' ∧
    (("````quiz\na: 1\n````".toList).drop (9 + 4 + 1)).take 4
      = List.replicate 4 '`' ∧
    ("````quiz\na: 1\n````".toList).get? (9 + 4 + 1 + 4) ≠ some '`' :=
  C4_delimiter_length_discipline.1 ("````quiz\na: 1\n````".toList) 0
    ⟨0, 18, 4, "quiz".toList, 9, "a: 1".toList⟩ (by rfl)

/-- C5: for a fence whose body parses to a configuration mapping, the
rendered fragment is the normal-path fragment whose `data-config`
attribute is the escaped JSON serialization; HTML-attribute-unescaping
that attribute text and JSON-parsing it recovers a structure equal to the
configuration; and the serialization preserves full Unicode, never turning
a non-ASCII character into a numeric escape. -/
theorem C5_round_trip_of_valid_configuration :
    (∀ (p : YamlLoad) (t body : List Char) (kvs : List (List Char × Yaml)),
       p body = Except.ok (Yaml.map kvs) →
       fence_to_html p t body = Except.ok (okFragment t kvs)) ∧
    (∀ kvs : List (List Char × Yaml),
       jsonParse (htmlUnescape (escapeAttr (jsonDumps (Yaml.map kvs))))
         = some (Yaml.map kvs)) ∧
    (∀ c : Char, 128 ≤ c.toNat → jsonEscapeChar c = [c]) := by
  refine ⟨fence_to_html_map, ?_, ?_⟩
  · intro kvs
    rw [htmlUnescape_escapeAttr, jsonParse_jsonDumps]
  · intro c hc
    rw [jsonEscapeChar]
    rw [if_neg (by intro h; subst h; exact absurd hc (by decide))]
    rw [if_neg (by intro h; subst h; exact absurd hc (by decide))]
    rw [if_neg (by intro h; subst h; exact absurd hc (by decide))]
    rw [if_neg (by intro h; subst h; exact absurd hc (by decide))]
    rw [if_neg (by intro h; subst h; exact absurd hc (by decide))]
    rw [if_neg (by intro h; subst h; exact absurd hc (by decide))]
    rw [if_neg (by intro h; subst h; exact absurd hc (by decide))]
    rw [if_neg (by omega)]

/-- Witness for C5: the fence body `title: T`, whose attribute text
round-trips to the configuration, and a concrete non-ASCII character kept
literal. -/
theorem C5_round_trip_witness :
    fence_to_html yamlModel ("quiz".toList) ("title: T".toList)
      = Except.ok (okFragment ("quiz".toList) [("title".toList, Yaml.str ['T'])]) ∧
    jsonParse (htmlUnescape (escapeAttr (jsonDumps
        (Yaml.map [("title".toList, Yaml.str ['T'])]))))
      = some (Yaml.map [("title".toList, Yaml.str ['T'])]) ∧
    jsonEscapeChar (Char.ofNat 233) = [Char.ofNat 233] :=
  ⟨C5_round_trip_of_valid_configuration.1 yamlModel ("quiz".toList)
      ("title: T".toList) [("title".toList, Yaml.str ['T'])] rfl,
   C5_round_trip_of_valid_configuration.2.1 [("title".toList, Yaml.str ['T'])],
   C5_round_trip_of_valid_configuration.2.2 (Char.ofNat 233) (by decide)⟩

/-- C6: the escaping of the JSON text replaces `&` first, then the single
quote, then `"`, as a single left-to-right pass whose later replacements
never re-escape the ampersands introduced earlier; the escaped attribute
text contains no quote characters and every `&` in it starts an entity;
and unescaping recovers the JSON text exactly. -/
theorem C6_escaping_correctness (v : Yaml) :
    wellEscaped (escapeAttr (jsonDumps v)) = true ∧
    Char.ofNat 39 ∉ escapeAttr (jsonDumps v) ∧
    '"' ∉ escapeAttr (jsonDumps v) ∧
    htmlUnescape (escapeAttr (jsonDumps v)) = jsonDumps v ∧
    escapeAttr (jsonDumps v) = escBlocks (jsonDumps v) := by
  refine ⟨?_, ?_, ?_, htmlUnescape_escapeAttr _, escapeAttr_eq_escBlocks _⟩
  · rw [escapeAttr_eq_escBlocks]
    exact wellEscaped_escBlocks _
  · rw [escapeAttr_eq_escBlocks]
    exact apos_not_mem_escBlocks _
  · rw [escapeAttr_eq_escBlocks]
    exact quot_not_mem_escBlocks _

/-- Witness for C6 at a configuration whose string value contains `&`, the
single quote and `"`. -/
theorem C6_escaping_witness :
    wellEscaped (escapeAttr (jsonDumps
        (Yaml.map [("t".toList, Yaml.str ['&', Char.ofNat 39, '"'])]))) = true ∧
    Char.ofNat 39 ∉ escapeAttr (jsonDumps
        (Yaml.map [("t".toList, Yaml.str ['&', Char.ofNat 39, '"'])])) ∧
    '"' ∉ escapeAttr (jsonDumps
        (Yaml.map [("t".toList, Yaml.str ['&', Char.ofNat 39, '"'])])) ∧
    htmlUnescape (escapeAttr (jsonDumps
        (Yaml.map [("t".toList, Yaml.str ['&', Char.ofNat 39, '"'])])))
      = jsonDumps (Yaml.map [("t".toList, Yaml.str ['&', Char.ofNat 39, '"'])]) ∧
    escapeAttr (jsonDumps
        (Yaml.map [("t".toList, Yaml.str ['&', Char.ofNat 39, '"'])]))
      = escBlocks (jsonDumps
          (Yaml.map [("t".toList, Yaml.str ['&', Char.ofNat 39, '"'])])) :=
  C6_escaping_correctness (Yaml.map [("t".toList, Yaml.str ['&', Char.ofNat 39, '"'])])

/-- C7: the display title of a successfully parsed fence prefers the
configuration's `title` entry, else its `question` entry, else the
humanized fence-type name (hyphens to spaces, words capitalized), and the
fragment renders that title in its noscript fallback; concretely,
title+question renders `T`, question alone renders `Q`, and an empty
configuration for `command-builder` renders `Command Builder`. -/
theorem C7_title_precedence :
    (∀ (p : YamlLoad) (t body : List Char) (kvs : List (List Char × Yaml)),
       p body = Except.ok (Yaml.map kvs) →
       fence_to_html p t body = Except.ok (okFragment t kvs) ∧
       okFragment t kvs = "<div class=\"interactive-".toList ++ t ++
         "\" data-config=\"".toList ++ escapeAttr (jsonDumps (Yaml.map kvs)) ++
         "\">".toList ++ noscriptOf (displayTitle kvs t) ++ "</div>".toList) ∧
    (∀ (kvs : List (List Char × Yaml)) (t : List Char) (kv : List Char × Yaml),
       kvs.find? (fun q => q.1 == "title".toList) = some kv →
       displayTitle kvs t = pyStr kv.2) ∧
    (∀ (kvs : List (List Char × Yaml)) (t : List Char) (kv : List Char × Yaml),
       kvs.find? (fun q => q.1 == "title".toList) = none →
       kvs.find? (fun q => q.1 == "question".toList) = some kv →
       displayTitle kvs t = pyStr kv.2) ∧
    (∀ (kvs : List (List Char × Yaml)) (t : List Char),
       kvs.find? (fun q => q.1 == "title".toList) = none →
       kvs.find? (fun q => q.1 == "question".toList) = none →
       displayTitle kvs t = pyTitle (replaceChar '-' [' '] t)) ∧
    (∀ t : List Char,
       displayTitle [("title".toList, Yaml.str ['T']),
         ("question".toList, Yaml.str ['Q'])] t = ['T']) ∧
    (∀ t : List Char,
       displayTitle [("question".toList, Yaml.str ['Q'])] t = ['Q']) ∧
    displayTitle [] ("command-builder".toList) = "Command Builder".toList := by
  refine ⟨?_, ?_, ?_, ?_, ?_, ?_, ?_⟩
  · intro p t body kvs h
    exact ⟨fence_to_html_map p t body kvs h, rfl⟩
  · intro kvs t kv h
    unfold displayTitle dictGet
    rw [h]
  · intro kvs t kv h1 h2
    unfold displayTitle dictGet
    rw [h1, h2]
  · intro kvs t h1 h2
    unfold displayTitle dictGet
    rw [h1, h2]
    rfl
  · intro t
    rfl
  · intro t
    rfl
  · rfl

/-- Witness for C7: the three concrete title choices of the spec, produced
through the whole fence conversion. -/
theorem C7_title_precedence_witness :
    (fence_to_html yamlModel ("quiz".toList) ("question: Q".toList)
       = Except.ok (okFragment ("quiz".toList)
           [("question".toList, Yaml.str ['Q'])]) ∧
     okFragment ("quiz".toList) [("question".toList, Yaml.str ['Q'])]
       = "<div class=\"interactive-".toList ++ "quiz".toList ++
         "\" data-config=\"".toList ++
         escapeAttr (jsonDumps (Yaml.map [("question".toList, Yaml.str ['Q'])])) ++
         "\">".toList ++
         noscriptOf (displayTitle [("question".toList, Yaml.str ['Q'])]
           ("quiz".toList)) ++ "</div>".toList) ∧
    displayTitle [("title".toList, Yaml.str ['T']),
      ("question".toList, Yaml.str ['Q'])] ("quiz".toList) = ['T'] ∧
    displayTitle [("question".toList, Yaml.str ['Q'])] ("quiz".toList) = ['Q'] ∧
    displayTitle [] ("command-builder".toList) = "Command Builder".toList :=
  ⟨C7_title_precedence.1 yamlModel ("quiz".toList) ("question: Q".toList)
     [("question".toList, Yaml.str ['Q'])] rfl,
   C7_title_precedence.2.2.2.2.1 ("quiz".toList),
   C7_title_precedence.2.2.2.2.2.1 ("quiz".toList),
   C7_title_precedence.2.2.2.2.2.2⟩

/-- C8: a text with no valid fence of a recognized type — in particular an
unterminated fence or a fence of the unrecognized type `poll` — is
returned unchanged byte for byte, and in a multi-fence document all text
outside the matched spans is preserved verbatim around the replacements. -/
theorem C8_passthrough_of_non_matches :
    (∀ (p : YamlLoad) (doc : List Char), findFrom doc 0 = none →
       on_page_markdown p doc = Except.ok doc) ∧
    (∀ p : YamlLoad, on_page_markdown p ("```poll\nx: 1\n```".toList)
       = Except.ok ("```poll\nx: 1\n```".toList)) ∧
    (∀ p : YamlLoad, on_page_markdown p ("```quiz\na: 1".toList)
       = Except.ok ("```quiz\na: 1".toList)) ∧
    on_page_markdown yamlModel
        ("intro\n```quiz\ntitle: T\n```\nmiddle\n````exercise\na: 1\n````\nend".toList)
      = Except.ok ("intro\n".toList ++
          okFragment ("quiz".toList) [("title".toList, Yaml.str ['T'])] ++
          "\nmiddle\n".toList ++
          okFragment ("exercise".toList) [("a".toList, Yaml.int 1)] ++
          "\nend".toList) := by
  refine ⟨on_page_markdown_no_match, ?_, ?_, ?_⟩
  · intro p
    exact on_page_markdown_no_match p _ rfl
  · intro p
    exact on_page_markdown_no_match p _ rfl
  · rfl

/-- Witness for C8: a plain text document is returned unchanged. -/
theorem C8_passthrough_witness :
    on_page_markdown yamlModel ("hello world".toList)
      = Except.ok ("hello world".toList) :=
  C8_passthrough_of_non_matches.1 yamlModel ("hello world".toList) rfl

/-- C9: a matched fence whose body parses to the YAML null value (in
particular the empty body) is normalized to the empty configuration
mapping, not treated as an error: the rendered fragment carries the
attribute text `{}` and the humanized fence-type name as its title. -/
theorem C9_empty_body_normalized :
    (∀ (p : YamlLoad) (t body : List Char), p body = Except.ok Yaml.null →
       fence_to_html p t body = Except.ok (okFragment t [])) ∧
    escapeAttr (jsonDumps (Yaml.map [])) = ['{', '}'] ∧
    (∀ t : List Char, displayTitle [] t = pyTitle (replaceChar '-' [' '] t)) ∧
    (okFragment ("quiz".toList) []
      = "<div class=\"interactive-quiz\" data-config=\"".toList ++ ['{', '}'] ++
        "\"><noscript><p><strong>Quiz</strong> (requires JavaScript)</p></noscript></div>".toList) ∧
    on_page_markdown yamlModel ("```quiz\n\n```".toList)
      = Except.ok (okFragment ("quiz".toList) []) := by
  refine ⟨fence_to_html_null, rfl, ?_, rfl, rfl⟩
  intro t
  rfl

/-- Witness for C9: the empty fence body with the modelled loader. -/
theorem C9_empty_body_witness :
    fence_to_html yamlModel ("quiz".toList) [] = Except.ok (okFragment ("quiz".toList) []) ∧
    displayTitle [] ("quiz".toList) = pyTitle (replaceChar '-' [' '] ("quiz".toList)) :=
  ⟨C9_empty_body_normalized.1 yamlModel ("quiz".toList) [] rfl,
   C9_empty_body_normalized.2.2.1 ("quiz".toList)⟩

/-- C10: the title (or question) string of a parsed configuration is
interpolated verbatim into the noscript paragraph with no HTML escaping —
the rendered fragment splices the raw string between `<strong>` and
`</strong>` even when it contains `<`, `>` or `&`, while the
`data-config` attribute next to it is escaped. -/
theorem C10_title_interpolated_verbatim :
    (∀ (p : YamlLoad) (t body s : List Char),
       p body = Except.ok (Yaml.map [("title".toList, Yaml.str s)]) →
       fence_to_html p t body = Except.ok
         ("<div class=\"interactive-".toList ++ t ++ "\" data-config=\"".toList ++
           escapeAttr (jsonDumps (Yaml.map [("title".toList, Yaml.str s)])) ++
           "\"><noscript><p><strong>".toList ++ s ++
           "</strong> (requires JavaScript)</p></noscript></div>".toList)) ∧
    on_page_markdown yamlModel ("```quiz\ntitle: a<b&c\n```".toList)
      = Except.ok ("<div class=\"interactive-quiz\" data-config=\"".toList ++
          ['{'] ++ "&quot;title&quot;: &quot;a<b&amp;c&quot;".toList ++ ['}'] ++
          "\"><noscript><p><strong>a<b&c</strong> (requires JavaScript)</p></noscript></div>".toList) := by
  constructor
  · intro p t body s h
    rw [fence_to_html_map p t body _ h]
    show Except.ok (okFragment t [("title".toList, Yaml.str s)]) = _
    unfold okFragment noscriptOf displayTitle dictGet
    simp [pyStr]
  · rfl

/-- Witness for C10: a title containing `<` and `&` appears literally. -/
theorem C10_title_verbatim_witness :
    fence_to_html yamlModel ("quiz".toList) ("title: a<b&c".toList) = Except.ok
      ("<div class=\"interactive-".toList ++ "quiz".toList ++ "\" data-config=\"".toList ++
        escapeAttr (jsonDumps (Yaml.map [("title".toList, Yaml.str "a<b&c".toList)])) ++
        "\"><noscript><p><strong>".toList ++ "a<b&c".toList ++
        "</strong> (requires JavaScript)</p></noscript></div>".toList) :=
  C10_title_interpolated_verbatim.1 yamlModel ("quiz".toList)
    ("title: a<b&c".toList) ("a<b&c".toList) rfl

end Hooks
